import Mathlib

/-!
Shallow embedding of the prometheus-edge-hub repository (Go) and proofs
about its specification.

The hub package stores pushed Prometheus metrics in per-series timestamp
queues and drains them on scrape; the distributor package fans individual
samples out to downstream hubs selected by a consistent-hash ring.

Modelling conventions used throughout:

* A Go `map[string]T` is modelled as an association list
  `List (String × T)` with first-match lookup (`findQ`) and first-match
  replacement (`setQ`).  Go map iteration order is unspecified; the list
  order stands in for one such order, and no theorem below depends on a
  particular cross-key order.
* A `*dto.Metric` is modelled structurally by its label pairs, numeric
  value and timestamp.  The float64 sample value is carried as an `Int`
  (no claim computes with sample values), `TimestampMs` (int64) as `Int`.
  Optional protobuf fields that the claims need (`Help`, `Type`) are
  `Option`s; `GetName()` of a nil name is the empty string, so `name` is a
  plain `String`.
* Mutation of a Go map entry becomes functional update of the
  association list; mutation of a metric's label slice in place
  (`makeLabeledName` sorts it) is reflected by storing `canonMetric m`
  (the metric with sorted labels) wherever Go stores the pointer whose
  labels were just sorted.
-/

/-- A Prometheus label pair (`dto.LabelPair`): name and value strings. -/
structure LabelPair where
  name : String
  value : String
deriving DecidableEq, Repr

/-- A sample (`dto.Metric`): label pairs, numeric value, timestamp in ms.
The value payload (counter/gauge/... , a float64) is abstracted to `Int`;
no claim computes with it. -/
structure Metric where
  label : List LabelPair
  value : Int
  timestampMs : Int
deriving DecidableEq, Repr

/-- Metric kind (`dto.MetricType`). -/
inductive MetricKind where
  | counter
  | gauge
  | summary
  | untyped
  | histogram
deriving DecidableEq, Repr

/-- A metric family (`dto.MetricFamily`): name, optional help, optional
kind, and the batch of samples it carries. -/
structure MetricFamily where
  name : String
  help : Option String
  ktype : Option MetricKind
  metric : List Metric
deriving DecidableEq, Repr

/-- First-match association-list lookup, the model of reading a Go map. -/
def findQ {α : Type} (k : String) : List (String × α) → Option α
  | [] => none
  | (k2, v) :: rest => if k2 = k then some v else findQ k rest

/-- First-match association-list replacement (insert at the end when the
key is absent), the model of assigning to a Go map entry. -/
def setQ {α : Type} (k : String) (v : α) : List (String × α) → List (String × α)
  | [] => [(k, v)]
  | (k2, v2) :: rest => if k2 = k then (k, v) :: rest else (k2, v2) :: setQ k v rest

/-- One step of the insertion sort that `sort.Slice` in `makeLabeledName`
performs on a metric's label slice with comparator
`labels[i].GetName() < labels[j].GetName()`: the incoming pair goes after
every already-placed pair whose name is ≤ its own (for slices of fewer
than 12 elements the Go sort is exactly an insertion sort, hence stable). -/
def insertByName (p : LabelPair) : List LabelPair → List LabelPair
  | [] => [p]
  | q :: rest => if p.name < q.name then p :: q :: rest else q :: insertByName p rest

/-- The in-place `sort.Slice(labels, by name <)` of `makeLabeledName`,
as a left-to-right (stable) insertion sort. -/
def sortLabels (ls : List LabelPair) : List LabelPair :=
  ls.foldl (fun acc p => insertByName p acc) []

/-- `makeLabeledName` builds a unique series name from a metric's label
pairs: the family name followed by `_name_value` for each label pair in
the name-sorted order. -/
def makeLabeledName (metric : Metric) (metricName : String) : String :=
  (sortLabels metric.label).foldl (fun s p => s ++ "_" ++ p.name ++ "_" ++ p.value) metricName

/-- In Go, `makeLabeledName` sorts the metric's label slice in place, so
the metric as stored in a queue carries its labels sorted by name.  This
is that stored form. -/
def canonMetric (m : Metric) : Metric :=
  { m with label := sortLabels m.label }

/-- `sortedInsert` places `el` in `data` at the first index whose
timestamp is strictly greater than `el`'s (the Go code finds that index
with `sort.Search`, a binary search, and shifts; on the sorted queues the
store maintains this equals the first-index linear insertion below). -/
def sortedInsert (data : List Metric) (el : Metric) : List Metric :=
  match data with
  | [] => [el]
  | x :: rest =>
    if el.timestampMs < x.timestampMs then el :: x :: rest
    else x :: sortedInsert rest el

/-- Per-metric step of `newFamilyAndMetrics`: append when the timestamp is
≥ the last queued one, otherwise `metrics[name] = sortedInsert(...)` — in
this function the Go code does write the result back into the map. -/
def newFamilyStep (familyName : String) (qs : List (String × List Metric)) (metric : Metric) :
    List (String × List Metric) :=
  let name := makeLabeledName metric familyName
  let m := canonMetric metric
  match findQ name qs with
  | some queue =>
    match queue.getLast? with
    | some lastM =>
      if lastM.timestampMs ≤ m.timestampMs then setQ name (queue ++ [m]) qs
      else setQ name (sortedInsert queue m) qs
    | none => setQ name [m] qs
  | none => setQ name [m] qs

/-- `familyAndMetrics`: the family's metadata (its `Metric` slice cleared)
plus the map from canonical labeled series name to the series queue. -/
structure FamilyAndMetrics where
  family : MetricFamily
  metrics : List (String × List Metric)
deriving DecidableEq, Repr

/-- `newFamilyAndMetrics`: build the series queues from the family's
samples, then clear `family.Metric` (the samples now live in the queues). -/
def newFamilyAndMetrics (family : MetricFamily) : FamilyAndMetrics :=
  { family := { family with metric := [] }
    metrics := family.metric.foldl (newFamilyStep family.name) [] }

/-- Per-metric step of `familyAndMetrics.addMetrics`.  In the out-of-order
branch the Go code reads `queue = sortedInsert(queue, metric)` — the
result is assigned to the local variable `queue` only and is never written
back to `f.metrics[metricName]`, unlike the sibling branch in
`newFamilyAndMetrics`.  When the queue's backing array is at full
capacity (as it is whenever the queue was last produced by a reallocating
append, in particular for every freshly created queue literal) the append
inside `sortedInsert` reallocates and the stored queue is observably
unchanged: the sample is silently dropped.  That observable behaviour is
what this embedding gives the branch.  The `some []` case is unreachable:
stored queues are never empty (Go would panic indexing `queue[len-1]`). -/
def addMetricsStep (familyName : String) (qs : List (String × List Metric)) (metric : Metric) :
    List (String × List Metric) :=
  let name := makeLabeledName metric familyName
  let m := canonMetric metric
  match findQ name qs with
  | some queue =>
    match queue.getLast? with
    | some lastM =>
      if lastM.timestampMs ≤ m.timestampMs then setQ name (queue ++ [m]) qs
      else qs
    | none => setQ name [m] qs
  | none => setQ name [m] qs

/-- `familyAndMetrics.addMetrics`: merge a batch of samples into the
per-series queues. -/
def FamilyAndMetrics.addMetrics (f : FamilyAndMetrics) (newMetrics : List Metric) :
    FamilyAndMetrics :=
  { f with metrics := newMetrics.foldl (addMetricsStep f.family.name) f.metrics }

/-- `familyAndMetrics.popDatapoints`: a copy of the family metadata whose
`Metric` list is every queue's samples, appended queue after queue (the
skip of empty queues in the source is a no-op under concatenation). -/
def FamilyAndMetrics.popDatapoints (f : FamilyAndMetrics) : MetricFamily :=
  { f.family with metric := f.metrics.foldl (fun acc e => acc ++ e.2) [] }

/-- All samples buffered in a queue map, queue after queue (the same fold
`popDatapoints` performs). -/
def qmapSamples (qs : List (String × List Metric)) : List Metric :=
  qs.foldl (fun acc e => acc ++ e.2) []

/-- All samples buffered for one family. -/
def familySamples (f : FamilyAndMetrics) : List Metric :=
  qmapSamples f.metrics

/-- Modelled from the spec: the exposition codec (third-party
`expfmt.MetricFamilyToText`) renders one family as a textual block ("a
`# TYPE` header and one line per Sample, in the supplied order").  Only a
representative rendering is needed; the claims rely on its per-family
block shape, not the exact bytes.  `dto.GetType` of an unset kind is
`MetricType_COUNTER` (value 0), whence the default below. -/
def renderKind : Option MetricKind → String
  | some MetricKind.counter => "counter"
  | some MetricKind.gauge => "gauge"
  | some MetricKind.summary => "summary"
  | some MetricKind.untyped => "untyped"
  | some MetricKind.histogram => "histogram"
  | none => "counter"

/-- One rendered label pair, `name="value"`. -/
def renderLabelPair (p : LabelPair) : String :=
  p.name ++ "=\"" ++ p.value ++ "\""

/-- The rendered label block of one sample line (empty when the sample has
no labels). -/
def renderLabels (ls : List LabelPair) : String :=
  match ls with
  | [] => ""
  | _ => "\x7b" ++ String.intercalate "," (ls.map renderLabelPair) ++ "\x7d"

/-- One rendered sample line: name, labels, value, trailing timestamp. -/
def renderMetricLine (familyName : String) (m : Metric) : String :=
  familyName ++ renderLabels m.label ++ " " ++ toString m.value ++ " "
    ++ toString m.timestampMs ++ "\n"

/-- Modelled from the spec: the per-family output block of the third-party
exposition codec — optional `# HELP`, a `# TYPE` line, then the sample
lines in the supplied order. -/
def renderFamily (family : MetricFamily) : String :=
  (match family.help with
   | some h => "# HELP " ++ family.name ++ " " ++ h ++ "\n"
   | none => "")
  ++ "# TYPE " ++ family.name ++ " " ++ renderKind family.ktype ++ "\n"
  ++ String.join (family.metric.map (renderMetricLine family.name))

/-- `familyToString` hands the family to `expfmt.MetricFamilyToText` and
wraps its error.  Modelled from the spec: "a Sample whose family name is
empty causes the exposition codec to fail for that family" — the codec's
failure condition exercised by the repository (its test feeds a family
with a blank name and expects it dropped). -/
def familyToString (family : MetricFamily) : Except String String :=
  if family.name = "" then Except.error "error writing family string"
  else Except.ok (renderFamily family)

/-- `MetricHub.exposeMetrics`: the render pipeline.  Each family of the
snapshot is popped and rendered by a worker; a family whose rendering
fails is logged and dropped; the worker results are concatenated and the
aggregate string is returned — unless the scrape timeout fires first, in
which case the empty string is returned and the built string is
discarded.  The pool size only bounds parallelism, and the workers'
nondeterministic interleaving only permutes the blocks; snapshot order
stands in for the order actually produced.  The race against
`time.After(scrapeTimeout)` is real time and is modelled by the
`timedOut` flag: `timedOut = true` is the `<-time.After(...)` branch. -/
def exposeMetrics (metricFamiliesByName : List (String × FamilyAndMetrics))
    (timedOut : Bool) : String :=
  let body := String.join (metricFamiliesByName.filterMap
    (fun e => (familyToString e.2.popDatapoints).toOption))
  if timedOut then "" else body

/-- `hubStats`: the hub's introspection counters. -/
structure HubStats where
  lastScrapeTime : Int
  lastScrapeSize : Int
  lastScrapeNumFamilies : Nat
  lastReceiveTime : Int
  lastReceiveSize : Int
  lastReceiveNumFamilies : Nat
  currentCountFamilies : Nat
  currentCountSeries : Nat
  currentCountDatapoints : Nat
deriving DecidableEq, Repr

/-- Zero-initialised stats (Go zero value). -/
def HubStats.init : HubStats :=
  { lastScrapeTime := 0, lastScrapeSize := 0, lastScrapeNumFamilies := 0
    lastReceiveTime := 0, lastReceiveSize := 0, lastReceiveNumFamilies := 0
    currentCountFamilies := 0, currentCountSeries := 0, currentCountDatapoints := 0 }

/-- `MetricHub`: the live store, the configured limit and scrape timeout,
the stats, and — folded into the same state for the embedding — the two
process-wide prometheus gauges `hub_size` and `hub_limit` that the hub
writes (`hubSize.Set` / `hubLimit.Set`). -/
structure MetricHub where
  metricFamiliesByName : List (String × FamilyAndMetrics)
  limit : Int
  stats : HubStats
  scrapeTimeout : Int
  hubSizeGauge : Nat
  hubLimitGauge : Int
deriving DecidableEq, Repr

/-- `NewMetricHub`: empty store, configured limit and timeout; the
`hub_limit` gauge is set to the limit. -/
def NewMetricHub (limit : Int) (scrapeTimeout : Int) : MetricHub :=
  { metricFamiliesByName := [], limit := limit, stats := HubStats.init
    scrapeTimeout := scrapeTimeout, hubSizeGauge := 0, hubLimitGauge := limit }

/-- Per-family step of `hubMetrics`: add to an existing family's queues or
create the family. -/
def hubMetricsStep (st : List (String × FamilyAndMetrics)) (fam : MetricFamily) :
    List (String × FamilyAndMetrics) :=
  match findQ fam.name st with
  | some f => setQ fam.name (f.addMetrics fam.metric) st
  | none => setQ fam.name (newFamilyAndMetrics fam) st

/-- `MetricHub.hubMetrics`: merge a parsed batch into the store (in Go,
under the hub mutex).  The batch, a Go map in the source, is a list here;
batch iteration order is unspecified in Go and no claim depends on it. -/
def MetricHub.hubMetrics (c : MetricHub) (families : List MetricFamily) : MetricHub :=
  { c with metricFamiliesByName := families.foldl hubMetricsStep c.metricFamiliesByName }

/-- The sample count of a parsed push, `newDatapoints` in `Receive`. -/
def batchDatapoints (families : List MetricFamily) : Nat :=
  (families.map (fun f => f.metric.length)).sum

/-- `MetricHub.Receive` on a successfully parsed push (the 400 parse-error
path of the source returns before touching any state and is not
modelled): count the new datapoints; when a positive limit would be
overfilled, reply 406 and change nothing; otherwise merge, update the
last-receive stats, add to the buffered-sample counter and set the
`hub_size` gauge.  `now` models `time.Now().Unix()` and `contentLength`
the request's ContentLength.  Result: new hub state and HTTP status. -/
def MetricHub.Receive (c : MetricHub) (families : List MetricFamily)
    (now contentLength : Int) : MetricHub × Nat :=
  let newDatapoints := batchDatapoints families
  if 0 < c.limit ∧ c.limit < (c.stats.currentCountDatapoints : Int) + (newDatapoints : Int) then
    (c, 406)
  else
    let c1 := c.hubMetrics families
    ({ c1 with
        stats := { c1.stats with
          lastReceiveTime := now
          lastReceiveSize := contentLength
          lastReceiveNumFamilies := families.length
          currentCountDatapoints := c.stats.currentCountDatapoints + newDatapoints }
        hubSizeGauge := c.stats.currentCountDatapoints + newDatapoints }, 200)

/-- `MetricHub.Scrape`: swap the live store for an empty one
(`clearMetrics`), render the snapshot (subject to the timeout, see
`exposeMetrics`), zero the buffered-sample counter and the `hub_size`
gauge, update the last-scrape stats, and reply 200 with the rendered
text.  Result: new hub state, HTTP status, body. -/
def MetricHub.Scrape (c : MetricHub) (timedOut : Bool) (now : Int) :
    MetricHub × Nat × String :=
  let scrapeMetrics := c.metricFamiliesByName
  let expositionString := exposeMetrics scrapeMetrics timedOut
  ({ c with
      metricFamiliesByName := []
      stats := { c.stats with
        lastScrapeTime := now
        lastScrapeSize := (expositionString.length : Int)
        lastScrapeNumFamilies := scrapeMetrics.length
        currentCountDatapoints := 0 }
      hubSizeGauge := 0 }, 200, expositionString)

/-- `MetricHub.updateCountStats`: recompute the three current counts from
the live store. -/
def MetricHub.updateCountStats (c : MetricHub) : MetricHub :=
  { c with stats := { c.stats with
      currentCountFamilies := c.metricFamiliesByName.length
      currentCountSeries := (c.metricFamiliesByName.map (fun e => e.2.metrics.length)).sum
      currentCountDatapoints :=
        (c.metricFamiliesByName.map (fun e => (e.2.metrics.map (fun q => q.2.length)).sum)).sum } }

/-- `MetricHub.Debug`: recompute the counts, build the human-readable
report (its text — hostname, limit, utilisation, stats — is not needed by
any claim and is not modelled), appending the rendered live store when
verbose; the store itself is not consumed.  Result: new hub state, HTTP
status, the verbose exposition part of the body. -/
def MetricHub.Debug (c : MetricHub) (verbose : Bool) (timedOut : Bool) :
    MetricHub × Nat × String :=
  let c1 := c.updateCountStats
  let body := if verbose then exposeMetrics c1.metricFamiliesByName timedOut else ""
  (c1, 200, body)

/-- Total buffered samples across every series of every family of a
store: the quantity invariant 4 of the spec ties to the size counter. -/
def totalDatapoints (st : List (String × FamilyAndMetrics)) : Nat :=
  (st.map (fun e => (familySamples e.2).length)).sum

/-- `getKeyLabelValue` (distributor): the value of the first label pair
whose name is the key label, or the empty string when absent. -/
def getKeyLabelValue (metric : Metric) (keyLabel : String) : String :=
  match metric.label.find? (fun l => l.name == keyLabel) with
  | some l => l.value
  | none => ""

/-- The distributor's fan-out map `distSet`: hub address → (family name →
aggregated family). -/
def initDistSet (edgeHubArray : List String) :
    List (String × List (String × MetricFamily)) :=
  edgeHubArray.foldl (fun acc h => setQ h [] acc) []

/-- One sample's routing step inside `Distributor.ReceiveGRPC`.  The ring
lookup `d.ring.GetNode` is third-party (serialx/hashring) and is passed in
as `getNode`; it returns `none` exactly when the ring is empty, in which
case the Go call yields the zero values `("", false)` — the source logs
"Hash position not found" but does not skip the sample: it proceeds with
`hub = ""`.  Reading `distSet[hub]` for an unknown hub yields Go's nil
map, and the subsequent assignment `distSet[hub][name] = ...` panics
("assignment to entry in nil map"), modelled as `Except.error`. -/
def routeMetric (getNode : String → Option String) (keyLabel : String)
    (fam : MetricFamily) (distSet : List (String × List (String × MetricFamily)))
    (met : Metric) : Except Unit (List (String × List (String × MetricFamily))) :=
  let labelVal := getKeyLabelValue met keyLabel
  let hub := (getNode labelVal).getD ""
  match findQ hub distSet with
  | none => Except.error ()
  | some famMap =>
    match findQ fam.name famMap with
    | some existing =>
      Except.ok (setQ hub (setQ fam.name
        { existing with metric := existing.metric ++ [met] } famMap) distSet)
    | none =>
      Except.ok (setQ hub (setQ fam.name
        { name := fam.name, help := fam.help, ktype := fam.ktype, metric := [met] } famMap)
        distSet)

/-- The distribution phase of `Distributor.ReceiveGRPC`: initialise one
empty slot per configured hub, then route every sample of every family;
the result is the fan-out map handed to `sendToHubs` (the RPC sending
itself is transport glue and not modelled). -/
def distributeFamilies (getNode : String → Option String) (keyLabel : String)
    (edgeHubArray : List String) (families : List MetricFamily) :
    Except Unit (List (String × List (String × MetricFamily))) :=
  families.foldlM
    (fun ds fam => fam.metric.foldlM (routeMetric getNode keyLabel fam) ds)
    (initDistSet edgeHubArray)


/-! ### Association-list and fold lemmas -/

theorem findQ_mem {α : Type} {k : String} {v : α} :
    ∀ {qs : List (String × α)}, findQ k qs = some v → (k, v) ∈ qs := by
  intro qs
  induction qs with
  | nil => intro h; simp [findQ] at h
  | cons p rest ih =>
    intro h
    obtain ⟨k2, v2⟩ := p
    rw [findQ] at h
    split at h
    · next hk =>
      cases h
      subst hk
      exact List.mem_cons_self _ _
    · exact List.mem_cons_of_mem _ (ih h)

theorem mem_setQ {α : Type} {k : String} {v : α} :
    ∀ {qs : List (String × α)} {e : String × α}, e ∈ setQ k v qs → e = (k, v) ∨ e ∈ qs := by
  intro qs
  induction qs with
  | nil => intro e h; simp [setQ] at h; exact Or.inl h
  | cons p rest ih =>
    intro e h
    obtain ⟨k2, v2⟩ := p
    rw [setQ] at h
    split at h
    · rcases List.mem_cons.mp h with h1 | h1
      · exact Or.inl h1
      · exact Or.inr (List.mem_cons_of_mem _ h1)
    · rcases List.mem_cons.mp h with h1 | h1
      · exact Or.inr (h1 ▸ List.mem_cons_self _ _)
      · rcases ih h1 with h2 | h2
        · exact Or.inl h2
        · exact Or.inr (List.mem_cons_of_mem _ h2)

theorem setQ_length_of_found {α : Type} {k : String} {v w : α} :
    ∀ {qs : List (String × α)}, findQ k qs = some w → (setQ k v qs).length = qs.length := by
  intro qs
  induction qs with
  | nil => intro h; simp [findQ] at h
  | cons p rest ih =>
    intro h
    obtain ⟨k2, v2⟩ := p
    rw [findQ] at h
    rw [setQ]
    split at h
    · next hk => simp [if_pos hk]
    · next hk => simp [if_neg hk, ih h]

theorem mem_foldl_append {m : Metric} :
    ∀ (qs : List (String × List Metric)) (a : List Metric),
      m ∈ qs.foldl (fun acc e => acc ++ e.2) a ↔ m ∈ a ∨ ∃ e ∈ qs, m ∈ e.2 := by
  intro qs
  induction qs with
  | nil => intro a; simp
  | cons p rest ih =>
    intro a
    rw [List.foldl_cons, ih (a ++ p.2)]
    simp [List.mem_append, or_assoc]

theorem mem_qmapSamples {m : Metric} {qs : List (String × List Metric)} :
    m ∈ qmapSamples qs ↔ ∃ e ∈ qs, m ∈ e.2 := by
  have := mem_foldl_append (m := m) qs []
  simpa [qmapSamples] using this

theorem setQ_samples_mem {m : Metric} {k : String} {v : List Metric}
    {qs : List (String × List Metric)}
    (h : m ∈ qmapSamples (setQ k v qs)) : m ∈ v ∨ m ∈ qmapSamples qs := by
  rcases mem_qmapSamples.mp h with ⟨e, he, hme⟩
  rcases mem_setQ he with rfl | he2
  · exact Or.inl hme
  · exact Or.inr (mem_qmapSamples.mpr ⟨e, he2, hme⟩)

theorem findQ_samples_mem {m : Metric} {k : String} {q : List Metric}
    {qs : List (String × List Metric)}
    (hfq : findQ k qs = some q) (hm : m ∈ q) : m ∈ qmapSamples qs :=
  mem_qmapSamples.mpr ⟨(k, q), findQ_mem hfq, hm⟩

/-! ### Label-sorting lemmas -/

/-- The order `makeLabeledName` sorts by: comparison of label names. -/
def labelLe (p q : LabelPair) : Prop := p.name ≤ q.name

theorem insertByName_perm (p : LabelPair) : ∀ l, (insertByName p l).Perm (p :: l) := by
  intro l
  induction l with
  | nil => exact List.Perm.refl _
  | cons q rest ih =>
    rw [insertByName]
    split
    · exact List.Perm.refl _
    · exact (ih.cons q).trans (List.Perm.swap p q rest)

theorem insertByName_sorted (p : LabelPair) :
    ∀ {l : List LabelPair}, l.Sorted labelLe → (insertByName p l).Sorted labelLe := by
  intro l
  induction l with
  | nil => intro _; simp [insertByName, labelLe]
  | cons q rest ih =>
    intro hs
    rcases List.sorted_cons.mp hs with ⟨hq, hrest⟩
    rw [insertByName]
    split
    · next hlt =>
      refine List.sorted_cons.mpr ⟨?_, hs⟩
      intro b hb
      rcases List.mem_cons.mp hb with rfl | hb2
      · exact le_of_lt hlt
      · exact le_trans (le_of_lt hlt) (hq b hb2)
    · next hnlt =>
      have hqp : labelLe q p := le_of_not_lt hnlt
      refine List.sorted_cons.mpr ⟨?_, ih hrest⟩
      intro b hb
      have hb2 : b ∈ p :: rest := (insertByName_perm p rest).mem_iff.mp hb
      rcases List.mem_cons.mp hb2 with rfl | hb3
      · exact hqp
      · exact hq b hb3

theorem sortLabels_perm_aux :
    ∀ (l acc : List LabelPair),
      (l.foldl (fun acc p => insertByName p acc) acc).Perm (acc ++ l) := by
  intro l
  induction l with
  | nil => intro acc; simp
  | cons p rest ih =>
    intro acc
    rw [List.foldl_cons]
    exact (ih (insertByName p acc)).trans
      (((insertByName_perm p acc).append_right rest).trans List.perm_middle.symm)

theorem sortLabels_perm (l : List LabelPair) : (sortLabels l).Perm l := by
  have := sortLabels_perm_aux l []
  simpa [sortLabels] using this

theorem sortLabels_sorted_aux :
    ∀ (l acc : List LabelPair), acc.Sorted labelLe →
      (l.foldl (fun acc p => insertByName p acc) acc).Sorted labelLe := by
  intro l
  induction l with
  | nil => intro acc h; exact h
  | cons p rest ih =>
    intro acc h
    rw [List.foldl_cons]
    exact ih _ (insertByName_sorted p h)

theorem sortLabels_sorted (l : List LabelPair) : (sortLabels l).Sorted labelLe :=
  sortLabels_sorted_aux l [] (by simp)

theorem sorted_perm_eq_of_nodup_names :
    ∀ (l1 l2 : List LabelPair), l1.Perm l2 → l1.Sorted labelLe → l2.Sorted labelLe →
      (l1.map LabelPair.name).Nodup → l1 = l2 := by
  intro l1
  induction l1 with
  | nil =>
    intro l2 hp _ _ _
    exact (List.Perm.eq_nil hp.symm).symm
  | cons a t1 ih =>
    intro l2 hp hs1 hs2 hnd
    cases l2 with
    | nil => exact absurd hp.eq_nil (by simp)
    | cons b t2 =>
      rcases List.sorted_cons.mp hs1 with ⟨ha1, hst1⟩
      rcases List.sorted_cons.mp hs2 with ⟨hb2, hst2⟩
      rw [List.map_cons] at hnd
      rcases List.nodup_cons.mp hnd with ⟨hnotin, hndt⟩
      have hab : a = b := by
        by_contra hne
        have ha2 : a ∈ t2 := by
          have hmem := hp.mem_iff.mp (List.mem_cons_self a t1)
          rcases List.mem_cons.mp hmem with h | h
          · exact absurd h hne
          · exact h
        have hbt1 : b ∈ t1 := by
          have hmem := hp.symm.mem_iff.mp (List.mem_cons_self b t2)
          rcases List.mem_cons.mp hmem with h | h
          · exact absurd h.symm hne
          · exact h
        have hname : a.name = b.name := le_antisymm (ha1 b hbt1) (hb2 a ha2)
        exact hnotin (by rw [hname]; exact List.mem_map_of_mem _ hbt1)
      subst hab
      rw [ih t2 hp.cons_inv hst1 hst2 hndt]

theorem sortLabels_eq_of_perm {l1 l2 : List LabelPair} (hp : l1.Perm l2)
    (hnd : (l1.map LabelPair.name).Nodup) : sortLabels l1 = sortLabels l2 := by
  apply sorted_perm_eq_of_nodup_names
  · exact (sortLabels_perm l1).trans (hp.trans (sortLabels_perm l2).symm)
  · exact sortLabels_sorted l1
  · exact sortLabels_sorted l2
  · exact (List.Perm.nodup_iff ((sortLabels_perm l1).map LabelPair.name)).mpr hnd

theorem makeLabeledName_eq_of_perm (fname : String) {m1 m2 : Metric}
    (hp : m1.label.Perm m2.label) (hnd : (m1.label.map LabelPair.name).Nodup) :
    makeLabeledName m1 fname = makeLabeledName m2 fname := by
  unfold makeLabeledName
  rw [sortLabels_eq_of_perm hp hnd]

theorem addMetricsStep_mem {n : String} {qs : List (String × List Metric)} {mi m : Metric}
    (h : m ∈ qmapSamples (addMetricsStep n qs mi)) :
    m ∈ qmapSamples qs ∨ m = canonMetric mi := by
  simp only [addMetricsStep] at h
  split at h
  · next queue hfq =>
    split at h
    · next lastM hlast =>
      split at h
      · rcases setQ_samples_mem h with hv | hq
        · rcases List.mem_append.mp hv with hq2 | hm2
          · exact Or.inl (findQ_samples_mem hfq hq2)
          · exact Or.inr (by simpa using hm2)
        · exact Or.inl hq
      · exact Or.inl h
    · next hlast =>
      rcases setQ_samples_mem h with hv | hq
      · exact Or.inr (by simpa using hv)
      · exact Or.inl hq
  · next hfq =>
    rcases setQ_samples_mem h with hv | hq
    · exact Or.inr (by simpa using hv)
    · exact Or.inl hq

theorem addMetrics_mem_aux (n : String) :
    ∀ (ms : List Metric) (qs : List (String × List Metric)) (m : Metric),
      m ∈ qmapSamples (ms.foldl (addMetricsStep n) qs) →
      m ∈ qmapSamples qs ∨ ∃ m0 ∈ ms, m = canonMetric m0 := by
  intro ms
  induction ms with
  | nil => intro qs m h; exact Or.inl h
  | cons mi rest ih =>
    intro qs m h
    rw [List.foldl_cons] at h
    rcases ih _ m h with h1 | ⟨m0, hm0, hEq⟩
    · rcases addMetricsStep_mem h1 with h2 | h2
      · exact Or.inl h2
      · exact Or.inr ⟨mi, List.mem_cons_self mi rest, h2⟩
    · exact Or.inr ⟨m0, List.mem_cons_of_mem mi hm0, hEq⟩

/-! ### Concrete fixtures for the evaluation theorems -/

/-- A labelless sample with timestamp 10. -/
def m10 : Metric := { label := [], value := 3, timestampMs := 10 }

/-- A labelless sample with timestamp 5, older than `m10`. -/
def m5 : Metric := { label := [], value := 4, timestampMs := 5 }

/-- A push batch for family `f` carrying `m10`. -/
def fam10 : MetricFamily := { name := "f", help := none, ktype := none, metric := [m10] }

/-- A push batch for family `f` carrying `m5`. -/
def fam5 : MetricFamily := { name := "f", help := none, ktype := none, metric := [m5] }

/-- A sample with the single label pair `("a", "b_c")`. -/
def mA : Metric :=
  { label := [{ name := "a", value := "b_c" }], value := 1, timestampMs := 1 }

/-- A sample with the single label pair `("a_b", "c")`, a different
label-set from `mA`. -/
def mB : Metric :=
  { label := [{ name := "a_b", value := "c" }], value := 2, timestampMs := 2 }

/-- An unlimited hub after pushing `m10` and then, separately, the older
sample `m5`, both for family `f`. -/
def hubAfterTwoPushes : MetricHub :=
  (MetricHub.Receive (MetricHub.Receive (NewMetricHub 0 10) [fam10] 0 0).1 [fam5] 0 0).1

/-- The ring lookup of an empty consistent-hash ring: serialx/hashring's
`GetNode` returns `("", false)` when the ring has no nodes, for every key. -/
def emptyRingLookup : String → Option String := fun _ => none

/-- A one-sample family pushed to the distributor, carrying the key label. -/
def distFamily : MetricFamily :=
  { name := "f", help := none, ktype := none
    metric := [{ label := [{ name := "k", value := "v" }], value := 1, timestampMs := 1 }] }

/-! ### The claims -/

/-- C1: the claim states that merging a batch leaves every series queue
holding the old samples plus the batch's samples in non-decreasing
timestamp order, an out-of-order sample being placed by `sortedInsert`
"with the resulting queue stored back for the series".  The code violates
this: `addMetrics` assigns `sortedInsert`'s result to a local variable
and never stores it back.  Evaluation at the failing input: the series
queue for `f` holds the sample with timestamp 10; merging a batch with
timestamp 5 leaves the queue unchanged — the sample is silently dropped —
although `sortedInsert` itself produces exactly the queue the claim
requires. -/
theorem addMetrics_out_of_order_sample_dropped :
    ((newFamilyAndMetrics fam10).addMetrics [m5]).metrics = [("f", [m10])]
    ∧ sortedInsert [m10] m5 = [m5, m10]
    ∧ m5.timestampMs < m10.timestampMs := by decide

/-- C2: after a scrape completes — timed out or not — the live store is
the empty family map, the buffered-sample counter and the `hub_size`
gauge are zero, and a second immediate scrape with no intervening push
returns an empty body, hence no data lines. -/
theorem scrape_drains_store (c : MetricHub) (tO tO2 : Bool) (now now2 : Int) :
    (c.Scrape tO now).1.metricFamiliesByName = []
    ∧ (c.Scrape tO now).1.stats.currentCountDatapoints = 0
    ∧ (c.Scrape tO now).1.hubSizeGauge = 0
    ∧ ((c.Scrape tO now).1.Scrape tO2 now2).2.2 = "" := by
  refine ⟨rfl, rfl, rfl, ?_⟩
  cases tO2 <;> rfl

/-- C4: the claim states that the buffered-sample counter (and the
`hub_size` gauge) always equals the sum of the queue lengths and that
every push preserves the equality.  The code violates this through the
`addMetrics` store-back slip (see C1): after pushing the sample with
timestamp 10 and then the older sample with timestamp 5 for the same
series, `Receive` has added 2 to the counter and the gauge, but only one
sample is actually buffered. -/
theorem hub_size_counter_inconsistent :
    hubAfterTwoPushes.stats.currentCountDatapoints = 2
    ∧ hubAfterTwoPushes.hubSizeGauge = 2
    ∧ totalDatapoints hubAfterTwoPushes.metricFamiliesByName = 1 := by decide

/-- C6: the claim states that a sample whose ring lookup fails is logged
and dropped, the rest of the batch still being routed.  The code violates
this: after logging, it carries on with the zero-value hub address `""`,
and the assignment `distSet[""][name] = ...` into Go's nil map panics, so
the whole batch is lost.  Evaluation at the failing input (no configured
hubs, so the empty ring's lookup fails): the distribution aborts instead
of dropping the sample. -/
theorem distributor_lookup_failure_not_dropped :
    distributeFamilies emptyRingLookup "k" [] [distFamily] = Except.error () := rfl

/-- C7: a scrape whose render phase exceeds the scrape timeout (the
`time.After` branch of `exposeMetrics`, `timedOut = true`) returns status
200 with the empty string as body, discarding the partial render, and the
store has already been drained: the snapshot's samples are lost. -/
theorem scrape_timeout_returns_empty (c : MetricHub) (now : Int) :
    (c.Scrape true now).2.1 = 200
    ∧ (c.Scrape true now).2.2 = ""
    ∧ (c.Scrape true now).1.metricFamiliesByName = []
    ∧ (c.Scrape true now).1.stats.currentCountDatapoints = 0
    ∧ (c.Scrape true now).1.hubSizeGauge = 0 :=
  ⟨rfl, rfl, rfl, rfl, rfl⟩

/-- C9: accepted samples are immutable.  (i) A later merge never modifies
a buffered sample: every sample buffered after `addMetrics` is, field for
field (value, timestamp, label pairs and their stored order), either a
sample buffered before or one of the batch's samples in its stored form
`canonMetric` (labels name-sorted in place by `makeLabeledName` during
the sample's own push, before acceptance completes); no mutated variant
ever appears.  (ii) A scrape emits exactly the buffered samples,
unchanged: `popDatapoints` flattens the queues verbatim.  (iii) `Debug`
leaves the store untouched.  (iv) The stored form preserves the sample's
value, timestamp, and label multiset. -/
theorem sample_immutability :
    (∀ (f : FamilyAndMetrics) (ms : List Metric) (m : Metric),
        m ∈ familySamples (f.addMetrics ms) →
        m ∈ familySamples f ∨ ∃ m0 ∈ ms, m = canonMetric m0)
    ∧ (∀ f : FamilyAndMetrics, (f.popDatapoints).metric = familySamples f)
    ∧ (∀ (c : MetricHub) (v tO : Bool),
        (c.Debug v tO).1.metricFamiliesByName = c.metricFamiliesByName)
    ∧ (∀ m0 : Metric, (canonMetric m0).value = m0.value
        ∧ (canonMetric m0).timestampMs = m0.timestampMs
        ∧ ((canonMetric m0).label).Perm m0.label) := by
  refine ⟨?_, ?_, ?_, ?_⟩
  · intro f ms m h
    exact addMetrics_mem_aux f.family.name ms f.metrics m h
  · intro f; rfl
  · intro c v tO; rfl
  · intro m0; exact ⟨rfl, rfl, sortLabels_perm m0.label⟩

/-- C10: the canonical labeled name is not injective on label-sets: `mA`
(label `("a", "b_c")`) and `mB` (label `("a_b", "c")`) have distinct
label-sets yet the same canonical labeled name `f_a_b_c`, and the store
consequently merges both samples into the same series queue. -/
theorem makeLabeledName_not_injective :
    mA.label ≠ mB.label
    ∧ makeLabeledName mA "f" = makeLabeledName mB "f"
    ∧ (newFamilyAndMetrics { name := "f", help := none, ktype := none, metric := [mA, mB] }).metrics
        = [("f_a_b_c", [mA, mB])] := by decide

/-- `Receive` never changes the configured limit. -/
theorem Receive_preserves_limit (c : MetricHub) (families : List MetricFamily)
    (now len : Int) : ((c.Receive families now len).1).limit = c.limit := by
  simp only [MetricHub.Receive]
  split <;> rfl

/-- On a hub with a positive limit whose counter is within the limit,
`Receive` keeps the counter within the limit: a rejected push changes
nothing, and an accepted one was checked not to overfill. -/
theorem Receive_count_le (c : MetricHub) (families : List MetricFamily) (now len : Int)
    (hL : 0 < c.limit) (hc : (c.stats.currentCountDatapoints : Int) ≤ c.limit) :
    (((c.Receive families now len).1).stats.currentCountDatapoints : Int) ≤ c.limit := by
  simp only [MetricHub.Receive]
  split
  · exact hc
  · next hcond =>
    push_neg at hcond
    have h2 := hcond hL
    show ((c.stats.currentCountDatapoints + batchDatapoints families : Nat) : Int) ≤ c.limit
    push_cast
    omega

/-- C3: with a configured limit `L > 0`, a push whose sample count plus
the current buffered-sample count exceeds `L` is rejected with status 406
and the hub state — store, every family, every queue, all counters and
stats — is returned exactly unchanged; consequently no sequence of
pushes, starting from any hub within its limit, ever raises the
buffered-sample counter above `L`. -/
theorem receive_admission_safety (L : Int) (c : MetricHub) (hL : 0 < L)
    (hlim : c.limit = L) (hcount : (c.stats.currentCountDatapoints : Int) ≤ L) :
    (∀ (families : List MetricFamily) (now contentLength : Int),
        L < (c.stats.currentCountDatapoints : Int) + (batchDatapoints families : Int) →
        c.Receive families now contentLength = (c, 406))
    ∧ ∀ pushes : List (List MetricFamily × Int × Int),
        (((pushes.foldl (fun h p => (h.Receive p.1 p.2.1 p.2.2).1) c)).stats.currentCountDatapoints : Int)
          ≤ L := by
  constructor
  · intro families now len hover
    have h1 : 0 < c.limit := by rw [hlim]; exact hL
    have h2 : c.limit < (c.stats.currentCountDatapoints : Int) + (batchDatapoints families : Int) := by
      rw [hlim]; exact hover
    simp only [MetricHub.Receive]
    rw [if_pos ⟨h1, h2⟩]
  · have key : ∀ (ps : List (List MetricFamily × Int × Int)) (h : MetricHub),
        h.limit = L → (h.stats.currentCountDatapoints : Int) ≤ L →
        (((ps.foldl (fun h p => (h.Receive p.1 p.2.1 p.2.2).1) h)).stats.currentCountDatapoints : Int)
          ≤ L := by
      intro ps
      induction ps with
      | nil => intro h _ hc; exact hc
      | cons p rest ih =>
        intro h hl hc
        rw [List.foldl_cons]
        apply ih
        · rw [Receive_preserves_limit]; exact hl
        · have hstep := Receive_count_le h p.1 p.2.1 p.2.2 (by rw [hl]; exact hL)
            (by rw [hl]; exact hc)
          rw [hl] at hstep
          exact hstep
    intro pushes
    exact key pushes c hlim hcount

/-- C3 witness: a hub with limit 1 rejects a two-sample push unchanged,
and a sequence of pushes never lifts its counter above 1. -/
theorem receive_admission_safety_witness :
    MetricHub.Receive (NewMetricHub 1 10) [fam10, fam5] 0 0 = (NewMetricHub 1 10, 406)
    ∧ ((([([fam10], (0 : Int), (0 : Int)), ([fam5], 0, 0)].foldl
          (fun h p => (MetricHub.Receive h p.1 p.2.1 p.2.2).1)
          (NewMetricHub 1 10))).stats.currentCountDatapoints : Int) ≤ 1 := by
  have h := receive_admission_safety 1 (NewMetricHub 1 10) (by decide) rfl (by decide)
  exact ⟨h.1 [fam10, fam5] 0 0 (by decide), h.2 [([fam10], 0, 0), ([fam5], 0, 0)]⟩

/-- C5: label canonicalization is a deterministic function of the label
multiset alone: the canonical labeled name is the family name followed by
one `_name_value` segment per label pair in lexicographic order of label
names, so two samples carrying the same label pairs in different orders
resolve to the same series — one queue, not two.  The hypothesis that the
label names are pairwise distinct is the data model's own invariant
("Label names within a Sample are unique"); the name order is then a
total order on the pairs and the sorted form is unique. -/
theorem canonical_name_label_order_invariant
    (fname : String) (help : Option String) (kty : Option MetricKind) (m1 m2 : Metric)
    (hperm : m1.label.Perm m2.label)
    (hnodup : (m1.label.map LabelPair.name).Nodup) :
    makeLabeledName m1 fname = makeLabeledName m2 fname
    ∧ ((newFamilyAndMetrics
        { name := fname, help := help, ktype := kty, metric := [m1, m2] }).metrics).length = 1 := by
  have hname := makeLabeledName_eq_of_perm fname hperm hnodup
  refine ⟨hname, ?_⟩
  have h1 : newFamilyStep fname [] m1 = [(makeLabeledName m1 fname, [canonMetric m1])] := by
    simp [newFamilyStep, findQ, setQ]
  simp only [newFamilyAndMetrics, List.foldl_cons, List.foldl_nil, h1]
  simp only [newFamilyStep, ← hname, findQ, if_pos rfl]
  simp only [if_true, List.getLast?_singleton]
  split <;> simp [setQ]

/-- C5 witness: two concrete permuted two-label samples get the same
canonical labeled name and land in one series queue. -/
theorem canonical_name_label_order_invariant_witness :
    makeLabeledName
        { label := [{ name := "a", value := "1" }, { name := "b", value := "2" }],
          value := 1, timestampMs := 1 } "f"
      = makeLabeledName
        { label := [{ name := "b", value := "2" }, { name := "a", value := "1" }],
          value := 2, timestampMs := 2 } "f"
    ∧ ((newFamilyAndMetrics
        { name := "f", help := none, ktype := none,
          metric := [{ label := [{ name := "a", value := "1" }, { name := "b", value := "2" }],
                       value := 1, timestampMs := 1 },
                     { label := [{ name := "b", value := "2" }, { name := "a", value := "1" }],
                       value := 2, timestampMs := 2 }] }).metrics).length = 1 :=
  canonical_name_label_order_invariant "f" none none
    { label := [{ name := "a", value := "1" }, { name := "b", value := "2" }],
      value := 1, timestampMs := 1 }
    { label := [{ name := "b", value := "2" }, { name := "a", value := "1" }],
      value := 2, timestampMs := 2 }
    (by decide) (by decide)

/-- Concatenation of a cons of strings. -/
theorem strJoin_cons (s : String) (l : List String) :
    String.join (s :: l) = s ++ String.join l := by
  simp [String.join_eq]
  rfl

/-- The render pipeline concatenates exactly the blocks of the families
the codec accepts: every family whose name is nonempty, in snapshot
order; a failing family contributes nothing. -/
theorem exposeMetrics_chunks :
    ∀ st : List (String × FamilyAndMetrics),
      exposeMetrics st false
        = String.join ((st.filter (fun e => e.2.family.name != "")).map
            (fun e => renderFamily e.2.popDatapoints)) := by
  intro st
  induction st with
  | nil => rfl
  | cons e rest ih =>
    simp only [exposeMetrics, if_neg (by simp : ¬(false : Bool) = true)] at ih ⊢
    rw [List.filterMap_cons, List.filter_cons]
    by_cases hn : e.2.family.name = ""
    · have hfe : familyToString e.2.popDatapoints = Except.error "error writing family string" := by
        simp [familyToString, FamilyAndMetrics.popDatapoints, hn]
      have hb : (e.2.family.name != "") = false := by simp [hn]
      rw [hfe, hb]
      exact ih
    · have hfo : familyToString e.2.popDatapoints = Except.ok (renderFamily e.2.popDatapoints) := by
        simp [familyToString, FamilyAndMetrics.popDatapoints, hn]
      have hb : (e.2.family.name != "") = true := by simp [hn]
      rw [hfo, hb]
      show String.join (renderFamily e.2.popDatapoints
            :: List.filterMap (fun e => (familyToString e.2.popDatapoints).toOption) rest)
          = String.join (List.map (fun e => renderFamily e.2.popDatapoints)
              (e :: List.filter (fun e => e.2.family.name != "") rest))
      rw [strJoin_cons, List.map_cons, strJoin_cons, ih]

/-- C8: for every snapshot rendered, a family whose name is empty makes
the exposition codec (`familyToString`) fail for that family; the render
pipeline omits exactly the failing families from the output while every
other family of the snapshot still renders and appears as its block in
the output, and no error is propagated to the caller — `exposeMetrics`
totally returns the concatenation of the surviving blocks. -/
theorem render_isolates_failing_family (st : List (String × FamilyAndMetrics)) :
    (∀ e ∈ st, e.2.family.name = "" →
        familyToString e.2.popDatapoints = Except.error "error writing family string")
    ∧ exposeMetrics st false
        = String.join ((st.filter (fun e => e.2.family.name != "")).map
            (fun e => renderFamily e.2.popDatapoints)) := by
  constructor
  · intro e _ hn
    simp [familyToString, FamilyAndMetrics.popDatapoints, hn]
  · exact exposeMetrics_chunks st
